import Mathlib

/-!
Shallow embedding of `pull/pull_requests.go` (package `pull`).

The remote GitHub client is modelled as the finite sequence of page
responses it would hand back, consumed in call order: the k-th fetch of a
pagination loop receives the k-th element of the list.  Each operation
returns, next to its Go result, the trace of request options it sent, so
that call counts and request fields are observable.  A `*github.PullRequest`
is an `Option PullRequest` (`none` is a nil pointer); the generated
nil-tolerant accessors (`GetState`, `GetHead`, `GetSHA`, ...) are modelled
by total functions returning zero values on `none`, while the direct field
access `pr.Head` in `ListAllOpenPullRequestsFilteredBySHA` panics on a nil
record, modelled by the `panicked` outcome.
-/

/-- Model of `github.PullRequestBranch`: the fields the code reads. -/
structure PullRequestBranch where
  sha : Option String
  ref : Option String
deriving DecidableEq

/-- Model of `github.PullRequest`: the fields the code reads. -/
structure PullRequest where
  state : Option String
  head : Option PullRequestBranch
  base : Option PullRequestBranch
deriving DecidableEq

/-- A `*github.PullRequest`: `none` is a nil pointer. -/
abbrev PR := Option PullRequest

/-- go-github accessor `(pr *PullRequest).GetState()`: "" when pr or pr.State is nil. -/
def getState : PR → String
  | none => ""
  | some p => p.state.getD ""

/-- go-github accessor `(pr *PullRequest).GetHead()`: nil when pr is nil. -/
def getHead : PR → Option PullRequestBranch
  | none => none
  | some p => p.head

/-- go-github accessor `(pr *PullRequest).GetBase()`: nil when pr is nil. -/
def getBase : PR → Option PullRequestBranch
  | none => none
  | some p => p.base

/-- go-github accessor `(b *PullRequestBranch).GetSHA()`: "" when b or b.SHA is nil. -/
def getSHA : Option PullRequestBranch → String
  | none => ""
  | some b => b.sha.getD ""

/-- go-github accessor `(b *PullRequestBranch).GetRef()`: "" when b or b.Ref is nil. -/
def getRef : Option PullRequestBranch → String
  | none => ""
  | some b => b.ref.getD ""

/-- Model of `github.ListOptions`: the request options sent to
`ListPullRequestsWithCommit`. -/
structure ListOptions where
  page : Nat
  perPage : Nat
deriving DecidableEq

/-- Model of `github.PullRequestListOptions`: the request options sent to
`List`. -/
structure PullRequestListOptions where
  state : String
  base : String
  listOptions : ListOptions
deriving DecidableEq

/-- One remote page response: either records plus the `resp.NextPage`
metadata, or an error from the fetch. -/
inductive PageResult where
  | ok (prs : List PR) (nextPage : Nat)
  | err (msg : String)
deriving DecidableEq

/-- Outcome of one of the Go functions.  `ok` models `(results, nil)`,
`err` models `(nil, error)` (note it carries no records), `panicked` models
a nil-pointer dereference, and `stuck` is the model artifact for a response
sequence shorter than the number of fetches the loop performs. -/
inductive GoResult (α : Type) where
  | ok (val : α)
  | err (msg : String)
  | panicked
  | stuck
deriving DecidableEq

/-- `errors.Wrapf(err, "failed to list pull requests for repository %s/%s", owner, repo)`:
pkg/errors prepends the context and ": " to the cause's message. -/
def wrapRepoErr (owner repo msg : String) : String :=
  "failed to list pull requests for repository " ++ owner ++ "/" ++ repo ++ ": " ++ msg

/-- The filter of `getOpenPullRequestsForSHA`:
`pr.GetState() == "open" && pr.GetHead().GetSHA() == sha`. -/
def assocPred (sha : String) (pr : PR) : Bool :=
  getState pr == "open" && getSHA (getHead pr) == sha

/-- The per-page filter of `ListAllOpenPullRequestsFilteredBySHA`:
`pr.Head.GetSHA() == sha`.  The direct field access `pr.Head` dereferences
the record pointer, so a nil record makes the whole iteration panic
(result `none`). -/
def scanFilterPage (sha : String) : List PR → Option (List PR)
  | [] => some []
  | none :: _ => none
  | some p :: rest =>
    match scanFilterPage sha rest with
    | none => none
    | some tail => some (if getSHA p.head == sha then some p :: tail else tail)

/-- Pagination loop of `getOpenPullRequestsForSHA` (lines 39-56): fetch a
page with `ListOptions{Page: page, PerPage: 100}`, wrap and return any
error, append the records passing `assocPred`, stop when `resp.NextPage`
is 0, else set `opts.Page = resp.NextPage`.  Also returns the request
trace. -/
def getOpenPRsLoop (owner repo sha : String) (responses : List PageResult)
    (page : Nat) (acc : List PR) : GoResult (List PR) × List ListOptions :=
  match responses with
  | [] => (.stuck, [])
  | PageResult.err msg :: _ => (.err (wrapRepoErr owner repo msg), [⟨page, 100⟩])
  | PageResult.ok prs nextPage :: rest =>
    let acc2 := acc ++ prs.filter (assocPred sha)
    if nextPage == 0 then
      (.ok acc2, [⟨page, 100⟩])
    else
      let r := getOpenPRsLoop owner repo sha rest nextPage acc2
      (r.1, (⟨page, 100⟩ : ListOptions) :: r.2)

/-- `getOpenPullRequestsForSHA(ctx, client, owner, repo, sha)`: the loop
starts from `ListOptions{PerPage: 100}`, i.e. page 0 (the Go zero value). -/
def getOpenPullRequestsForSHA (owner repo sha : String)
    (responses : List PageResult) : GoResult (List PR) × List ListOptions :=
  getOpenPRsLoop owner repo sha responses 0 []

/-- Pagination loop of `ListAllOpenPullRequestsFilteredBySHA` (lines 71-88):
requests carry `State: "open"`, no base filter, `PerPage: 100`; records are
filtered by `pr.Head.GetSHA() == sha` (panicking on a nil record). -/
def listAllLoop (owner repo sha : String) (responses : List PageResult)
    (page : Nat) (acc : List PR) :
    GoResult (List PR) × List PullRequestListOptions :=
  match responses with
  | [] => (.stuck, [])
  | PageResult.err msg :: _ =>
    (.err (wrapRepoErr owner repo msg), [⟨"open", "", ⟨page, 100⟩⟩])
  | PageResult.ok prs nextPage :: rest =>
    match scanFilterPage sha prs with
    | none => (.panicked, [⟨"open", "", ⟨page, 100⟩⟩])
    | some matched =>
      let acc2 := acc ++ matched
      if nextPage == 0 then
        (.ok acc2, [⟨"open", "", ⟨page, 100⟩⟩])
      else
        let r := listAllLoop owner repo sha rest nextPage acc2
        (r.1, (⟨"open", "", ⟨page, 100⟩⟩ : PullRequestListOptions) :: r.2)

/-- `ListAllOpenPullRequestsFilteredBySHA(ctx, client, owner, repo, sha)`. -/
def ListAllOpenPullRequestsFilteredBySHA (owner repo sha : String)
    (responses : List PageResult) :
    GoResult (List PR) × List PullRequestListOptions :=
  listAllLoop owner repo sha responses 0 []

/-- Model of `ComposedResult`: the outcome of
`GetAllPossibleOpenPullRequestsForSHA` together with how many times each
sub-operation was invoked. -/
structure ComposedResult where
  result : GoResult (List PR)
  assocCalls : Nat
  scanCalls : Nat
deriving DecidableEq

/-- `GetAllPossibleOpenPullRequestsForSHA` (lines 95-112): call
`getOpenPullRequestsForSHA`; on error wrap with
"failed to get open pull requests matching the SHA" and return; if it
returned zero records call `ListAllOpenPullRequestsFilteredBySHA`, wrapping
its error with "failed to list open pull requests matching the SHA";
otherwise return the first result. -/
def GetAllPossibleOpenPullRequestsForSHA (owner repo sha : String)
    (assocResponses scanResponses : List PageResult) : ComposedResult :=
  match (getOpenPullRequestsForSHA owner repo sha assocResponses).1 with
  | GoResult.err msg =>
    ⟨.err ("failed to get open pull requests matching the SHA: " ++ msg), 1, 0⟩
  | GoResult.panicked => ⟨.panicked, 1, 0⟩
  | GoResult.stuck => ⟨.stuck, 1, 0⟩
  | GoResult.ok prs =>
    if prs.length == 0 then
      match (ListAllOpenPullRequestsFilteredBySHA owner repo sha scanResponses).1 with
      | GoResult.err msg =>
        ⟨.err ("failed to list open pull requests matching the SHA: " ++ msg), 1, 1⟩
      | other => ⟨other, 1, 1⟩
    else ⟨.ok prs, 1, 0⟩

/-- `strings.TrimPrefix(ref, "refs/heads/")`: remove one leading occurrence
when present (stated on the underlying character lists so that it
evaluates). -/
def stripRefsHeads (ref : String) : String :=
  if "refs/heads/".data.isPrefixOf ref.data then
    String.mk (ref.data.drop "refs/heads/".data.length)
  else ref

/-- Pagination loop of `GetAllOpenPullRequestsForRef` (lines 125-140):
requests carry `State: "open"`, `Base: ref`, `PerPage: 100`; every returned
record is accumulated unfiltered. -/
def forRefLoop (owner repo base : String) (responses : List PageResult)
    (page : Nat) (acc : List PR) :
    GoResult (List PR) × List PullRequestListOptions :=
  match responses with
  | [] => (.stuck, [])
  | PageResult.err msg :: _ =>
    (.err (wrapRepoErr owner repo msg), [⟨"open", base, ⟨page, 100⟩⟩])
  | PageResult.ok prs nextPage :: rest =>
    let acc2 := acc ++ prs
    if nextPage == 0 then
      (.ok acc2, [⟨"open", base, ⟨page, 100⟩⟩])
    else
      let r := forRefLoop owner repo base rest nextPage acc2
      (r.1, (⟨"open", base, ⟨page, 100⟩⟩ : PullRequestListOptions) :: r.2)

/-- `GetAllOpenPullRequestsForRef(ctx, client, owner, repo, ref)` (lines
115-143): strip the `refs/heads/` prefix from `ref`, then paginate. -/
def GetAllOpenPullRequestsForRef (owner repo ref : String)
    (responses : List PageResult) :
    GoResult (List PR) × List PullRequestListOptions :=
  forRefLoop owner repo (stripRefsHeads ref) responses 0 []

/-- A well-formed N-page response sequence: the first N-1 pages as
`(records, nextPage)` pairs with nonzero nextPage, rendered as `ok`
responses. -/
def okStream (pages : List (List PR × Nat)) : List PageResult :=
  pages.map (fun p => PageResult.ok p.1 p.2)

/-- All records of a well-formed sequence, in fetch order. -/
def pagesConcat (init : List (List PR × Nat)) (last : List PR) : List PR :=
  (init.map Prod.fst).flatten ++ last

/-- The request trace of the commit-association loop on a well-formed
sequence: first fetch at `page`, each later fetch at the previous
response's nextPage. -/
def assocTrace (page : Nat) : List Nat → List ListOptions
  | [] => [⟨page, 100⟩]
  | n :: ns => ⟨page, 100⟩ :: assocTrace n ns

/-- The request trace of the `List`-based loops on a well-formed
sequence. -/
def listTrace (base : String) (page : Nat) : List Nat → List PullRequestListOptions
  | [] => [⟨"open", base, ⟨page, 100⟩⟩]
  | n :: ns => ⟨"open", base, ⟨page, 100⟩⟩ :: listTrace base n ns

/-! ## Helper lemmas about the loops -/

theorem okStream_cons (p : List PR × Nat) (ps : List (List PR × Nat)) :
    okStream (p :: ps) = PageResult.ok p.1 p.2 :: okStream ps := rfl

theorem getOpenPRsLoop_last (owner repo sha : String) (prs : List PR)
    (rest : List PageResult) (page : Nat) (acc : List PR) :
    getOpenPRsLoop owner repo sha (PageResult.ok prs 0 :: rest) page acc =
      (.ok (acc ++ prs.filter (assocPred sha)), [⟨page, 100⟩]) := rfl

theorem getOpenPRsLoop_step (owner repo sha : String) (prs : List PR) (n : Nat)
    (hn : n ≠ 0) (rest : List PageResult) (page : Nat) (acc : List PR) :
    getOpenPRsLoop owner repo sha (PageResult.ok prs n :: rest) page acc =
      ((getOpenPRsLoop owner repo sha rest n (acc ++ prs.filter (assocPred sha))).1,
       (⟨page, 100⟩ : ListOptions) ::
         (getOpenPRsLoop owner repo sha rest n (acc ++ prs.filter (assocPred sha))).2) := by
  simp [getOpenPRsLoop, hn]

theorem getOpenPRsLoop_wf (owner repo sha : String)
    (init : List (List PR × Nat)) (last : List PR) (rest : List PageResult)
    (page : Nat) (acc : List PR) (h : ∀ p ∈ init, p.2 ≠ 0) :
    getOpenPRsLoop owner repo sha
        (okStream init ++ PageResult.ok last 0 :: rest) page acc =
      (.ok (acc ++ (pagesConcat init last).filter (assocPred sha)),
       assocTrace page (init.map Prod.snd)) := by
  induction init generalizing page acc with
  | nil =>
    rw [show okStream [] ++ PageResult.ok last 0 :: rest =
          PageResult.ok last 0 :: rest from rfl, getOpenPRsLoop_last]
    simp [pagesConcat, assocTrace]
  | cons p init ih =>
    obtain ⟨prs, n⟩ := p
    have hn : n ≠ 0 := h ⟨prs, n⟩ (by simp)
    have hrest : ∀ q ∈ init, q.2 ≠ 0 := fun q hq => h q (by simp [hq])
    rw [okStream_cons, List.cons_append, getOpenPRsLoop_step owner repo sha prs n hn]
    rw [ih n (acc ++ prs.filter (assocPred sha)) hrest]
    simp [pagesConcat, assocTrace, List.filter_append, List.append_assoc]

/-- The head-SHA filter of the scan, on pages with no nil record. -/
def scanPred (sha : String) (pr : PR) : Bool :=
  getSHA (getHead pr) == sha

theorem scanFilterPage_all_some (sha : String) (prs : List PR)
    (h : ∀ pr ∈ prs, pr ≠ none) :
    scanFilterPage sha prs = some (prs.filter (scanPred sha)) := by
  induction prs with
  | nil => rfl
  | cons pr rest ih =>
    match pr with
    | none => exact absurd rfl (h none (by simp))
    | some p =>
      have hrest : ∀ q ∈ rest, q ≠ none := fun q hq => h q (by simp [hq])
      rw [scanFilterPage, ih hrest]
      simp [scanPred, getHead, List.filter_cons]

theorem listAllLoop_last (owner repo sha : String) (prs : List PR)
    (matched : List PR) (hm : scanFilterPage sha prs = some matched)
    (rest : List PageResult) (page : Nat) (acc : List PR) :
    listAllLoop owner repo sha (PageResult.ok prs 0 :: rest) page acc =
      (.ok (acc ++ matched), [⟨"open", "", ⟨page, 100⟩⟩]) := by
  simp [listAllLoop, hm]

theorem listAllLoop_step (owner repo sha : String) (prs : List PR) (n : Nat)
    (hn : n ≠ 0) (matched : List PR) (hm : scanFilterPage sha prs = some matched)
    (rest : List PageResult) (page : Nat) (acc : List PR) :
    listAllLoop owner repo sha (PageResult.ok prs n :: rest) page acc =
      ((listAllLoop owner repo sha rest n (acc ++ matched)).1,
       (⟨"open", "", ⟨page, 100⟩⟩ : PullRequestListOptions) ::
         (listAllLoop owner repo sha rest n (acc ++ matched)).2) := by
  simp [listAllLoop, hm, hn]

theorem listAllLoop_wf (owner repo sha : String)
    (init : List (List PR × Nat)) (last : List PR) (rest : List PageResult)
    (page : Nat) (acc : List PR) (h : ∀ p ∈ init, p.2 ≠ 0)
    (hnn : ∀ p ∈ init, ∀ pr ∈ p.1, pr ≠ none)
    (hl : ∀ pr ∈ last, pr ≠ none) :
    listAllLoop owner repo sha
        (okStream init ++ PageResult.ok last 0 :: rest) page acc =
      (.ok (acc ++ (pagesConcat init last).filter (scanPred sha)),
       listTrace "" page (init.map Prod.snd)) := by
  induction init generalizing page acc with
  | nil =>
    rw [show okStream [] ++ PageResult.ok last 0 :: rest =
          PageResult.ok last 0 :: rest from rfl,
        listAllLoop_last owner repo sha last (last.filter (scanPred sha))
          (scanFilterPage_all_some sha last hl)]
    simp [pagesConcat, listTrace]
  | cons p init ih =>
    obtain ⟨prs, n⟩ := p
    have hn : n ≠ 0 := h ⟨prs, n⟩ (by simp)
    have hrest : ∀ q ∈ init, q.2 ≠ 0 := fun q hq => h q (by simp [hq])
    have hnnr : ∀ q ∈ init, ∀ pr ∈ q.1, pr ≠ none :=
      fun q hq => hnn q (by simp [hq])
    have hp : ∀ pr ∈ prs, pr ≠ none := hnn ⟨prs, n⟩ (by simp)
    rw [okStream_cons, List.cons_append,
        listAllLoop_step owner repo sha prs n hn (prs.filter (scanPred sha))
          (scanFilterPage_all_some sha prs hp)]
    rw [ih n (acc ++ prs.filter (scanPred sha)) hrest hnnr]
    simp [pagesConcat, listTrace, List.filter_append, List.append_assoc]

theorem forRefLoop_last (owner repo base : String) (prs : List PR)
    (rest : List PageResult) (page : Nat) (acc : List PR) :
    forRefLoop owner repo base (PageResult.ok prs 0 :: rest) page acc =
      (.ok (acc ++ prs), [⟨"open", base, ⟨page, 100⟩⟩]) := rfl

theorem forRefLoop_step (owner repo base : String) (prs : List PR) (n : Nat)
    (hn : n ≠ 0) (rest : List PageResult) (page : Nat) (acc : List PR) :
    forRefLoop owner repo base (PageResult.ok prs n :: rest) page acc =
      ((forRefLoop owner repo base rest n (acc ++ prs)).1,
       (⟨"open", base, ⟨page, 100⟩⟩ : PullRequestListOptions) ::
         (forRefLoop owner repo base rest n (acc ++ prs)).2) := by
  simp [forRefLoop, hn]

theorem forRefLoop_wf (owner repo base : String)
    (init : List (List PR × Nat)) (last : List PR) (rest : List PageResult)
    (page : Nat) (acc : List PR) (h : ∀ p ∈ init, p.2 ≠ 0) :
    forRefLoop owner repo base
        (okStream init ++ PageResult.ok last 0 :: rest) page acc =
      (.ok (acc ++ pagesConcat init last),
       listTrace base page (init.map Prod.snd)) := by
  induction init generalizing page acc with
  | nil =>
    rw [show okStream [] ++ PageResult.ok last 0 :: rest =
          PageResult.ok last 0 :: rest from rfl, forRefLoop_last]
    simp [pagesConcat, listTrace]
  | cons p init ih =>
    obtain ⟨prs, n⟩ := p
    have hn : n ≠ 0 := h ⟨prs, n⟩ (by simp)
    have hrest : ∀ q ∈ init, q.2 ≠ 0 := fun q hq => h q (by simp [hq])
    rw [okStream_cons, List.cons_append, forRefLoop_step owner repo base prs n hn]
    rw [ih n (acc ++ prs) hrest]
    simp [pagesConcat, listTrace, List.append_assoc]

theorem getOpenPRsLoop_err (owner repo sha : String)
    (init : List (List PR × Nat)) (e : String) (rest : List PageResult)
    (page : Nat) (acc : List PR) (h : ∀ p ∈ init, p.2 ≠ 0) :
    (getOpenPRsLoop owner repo sha
        (okStream init ++ PageResult.err e :: rest) page acc).1 =
      .err (wrapRepoErr owner repo e) := by
  induction init generalizing page acc with
  | nil => rfl
  | cons p init ih =>
    obtain ⟨prs, n⟩ := p
    have hn : n ≠ 0 := h ⟨prs, n⟩ (by simp)
    have hrest : ∀ q ∈ init, q.2 ≠ 0 := fun q hq => h q (by simp [hq])
    rw [okStream_cons, List.cons_append, getOpenPRsLoop_step owner repo sha prs n hn]
    exact ih n (acc ++ prs.filter (assocPred sha)) hrest

theorem listAllLoop_err (owner repo sha : String)
    (init : List (List PR × Nat)) (e : String) (rest : List PageResult)
    (page : Nat) (acc : List PR) (h : ∀ p ∈ init, p.2 ≠ 0)
    (hnn : ∀ p ∈ init, ∀ pr ∈ p.1, pr ≠ none) :
    (listAllLoop owner repo sha
        (okStream init ++ PageResult.err e :: rest) page acc).1 =
      .err (wrapRepoErr owner repo e) := by
  induction init generalizing page acc with
  | nil => rfl
  | cons p init ih =>
    obtain ⟨prs, n⟩ := p
    have hn : n ≠ 0 := h ⟨prs, n⟩ (by simp)
    have hrest : ∀ q ∈ init, q.2 ≠ 0 := fun q hq => h q (by simp [hq])
    have hnnr : ∀ q ∈ init, ∀ pr ∈ q.1, pr ≠ none :=
      fun q hq => hnn q (by simp [hq])
    have hp : ∀ pr ∈ prs, pr ≠ none := hnn ⟨prs, n⟩ (by simp)
    rw [okStream_cons, List.cons_append,
        listAllLoop_step owner repo sha prs n hn (prs.filter (scanPred sha))
          (scanFilterPage_all_some sha prs hp)]
    exact ih n (acc ++ prs.filter (scanPred sha)) hrest hnnr

theorem forRefLoop_err (owner repo base : String)
    (init : List (List PR × Nat)) (e : String) (rest : List PageResult)
    (page : Nat) (acc : List PR) (h : ∀ p ∈ init, p.2 ≠ 0) :
    (forRefLoop owner repo base
        (okStream init ++ PageResult.err e :: rest) page acc).1 =
      .err (wrapRepoErr owner repo e) := by
  induction init generalizing page acc with
  | nil => rfl
  | cons p init ih =>
    obtain ⟨prs, n⟩ := p
    have hn : n ≠ 0 := h ⟨prs, n⟩ (by simp)
    have hrest : ∀ q ∈ init, q.2 ≠ 0 := fun q hq => h q (by simp [hq])
    rw [okStream_cons, List.cons_append, forRefLoop_step owner repo base prs n hn]
    exact ih n (acc ++ prs) hrest

theorem getOpenPRsLoop_trace (owner repo sha : String)
    (responses : List PageResult) (page : Nat) (acc : List PR) :
    ∀ o ∈ (getOpenPRsLoop owner repo sha responses page acc).2,
      o.perPage = 100 := by
  induction responses generalizing page acc with
  | nil => intro o ho; simp [getOpenPRsLoop] at ho
  | cons r rest ih =>
    intro o ho
    match r with
    | PageResult.err e => simp [getOpenPRsLoop] at ho; simp [ho]
    | PageResult.ok prs n =>
      by_cases hn : n = 0
      · subst hn
        rw [getOpenPRsLoop_last] at ho
        simp at ho; simp [ho]
      · rw [getOpenPRsLoop_step owner repo sha prs n hn] at ho
        simp at ho
        rcases ho with ho | ho
        · simp [ho]
        · exact ih n (acc ++ prs.filter (assocPred sha)) o ho

theorem listAllLoop_trace (owner repo sha : String)
    (responses : List PageResult) (page : Nat) (acc : List PR) :
    ∀ o ∈ (listAllLoop owner repo sha responses page acc).2,
      o.state = "open" ∧ o.base = "" ∧ o.listOptions.perPage = 100 := by
  induction responses generalizing page acc with
  | nil => intro o ho; simp [listAllLoop] at ho
  | cons r rest ih =>
    intro o ho
    match r with
    | PageResult.err e => simp [listAllLoop] at ho; simp [ho]
    | PageResult.ok prs n =>
      match hm : scanFilterPage sha prs with
      | none =>
        simp [listAllLoop, hm] at ho
        simp [ho]
      | some matched =>
        by_cases hn : n = 0
        · subst hn
          rw [listAllLoop_last owner repo sha prs matched hm] at ho
          simp at ho; simp [ho]
        · rw [listAllLoop_step owner repo sha prs n hn matched hm] at ho
          simp at ho
          rcases ho with ho | ho
          · simp [ho]
          · exact ih n (acc ++ matched) o ho

theorem forRefLoop_trace (owner repo base : String)
    (responses : List PageResult) (page : Nat) (acc : List PR) :
    ∀ o ∈ (forRefLoop owner repo base responses page acc).2,
      o.state = "open" ∧ o.base = base ∧ o.listOptions.perPage = 100 := by
  induction responses generalizing page acc with
  | nil => intro o ho; simp [forRefLoop] at ho
  | cons r rest ih =>
    intro o ho
    match r with
    | PageResult.err e => simp [forRefLoop] at ho; simp [ho]
    | PageResult.ok prs n =>
      by_cases hn : n = 0
      · subst hn
        rw [forRefLoop_last] at ho
        simp at ho; simp [ho]
      · rw [forRefLoop_step owner repo base prs n hn] at ho
        simp at ho
        rcases ho with ho | ho
        · simp [ho]
        · exact ih n (acc ++ prs) o ho

theorem getOpenPRsLoop_no_panic (owner repo sha : String)
    (responses : List PageResult) (page : Nat) (acc : List PR) :
    (getOpenPRsLoop owner repo sha responses page acc).1 ≠ .panicked := by
  induction responses generalizing page acc with
  | nil => simp [getOpenPRsLoop]
  | cons r rest ih =>
    match r with
    | PageResult.err e => simp [getOpenPRsLoop]
    | PageResult.ok prs n =>
      by_cases hn : n = 0
      · subst hn; rw [getOpenPRsLoop_last]; simp
      · rw [getOpenPRsLoop_step owner repo sha prs n hn]
        exact ih n (acc ++ prs.filter (assocPred sha))

theorem forRefLoop_no_panic (owner repo base : String)
    (responses : List PageResult) (page : Nat) (acc : List PR) :
    (forRefLoop owner repo base responses page acc).1 ≠ .panicked := by
  induction responses generalizing page acc with
  | nil => simp [forRefLoop]
  | cons r rest ih =>
    match r with
    | PageResult.err e => simp [forRefLoop]
    | PageResult.ok prs n =>
      by_cases hn : n = 0
      · subst hn; rw [forRefLoop_last]; simp
      · rw [forRefLoop_step owner repo base prs n hn]
        exact ih n (acc ++ prs)

theorem listAllLoop_no_panic (owner repo sha : String)
    (responses : List PageResult) (page : Nat) (acc : List PR)
    (hnn : ∀ r ∈ responses, ∀ prs n, r = PageResult.ok prs n →
      ∀ pr ∈ prs, pr ≠ none) :
    (listAllLoop owner repo sha responses page acc).1 ≠ .panicked := by
  induction responses generalizing page acc with
  | nil => simp [listAllLoop]
  | cons r rest ih =>
    match r with
    | PageResult.err e => simp [listAllLoop]
    | PageResult.ok prs n =>
      have hp : ∀ pr ∈ prs, pr ≠ none :=
        hnn (PageResult.ok prs n) (by simp) prs n rfl
      have hrest : ∀ r ∈ rest, ∀ prs n, r = PageResult.ok prs n →
          ∀ pr ∈ prs, pr ≠ none :=
        fun r hr => hnn r (by simp [hr])
      by_cases hn : n = 0
      · subst hn
        rw [listAllLoop_last owner repo sha prs (prs.filter (scanPred sha))
              (scanFilterPage_all_some sha prs hp)]
        simp
      · rw [listAllLoop_step owner repo sha prs n hn (prs.filter (scanPred sha))
              (scanFilterPage_all_some sha prs hp)]
        exact ih n (acc ++ prs.filter (scanPred sha)) hrest

theorem assocTrace_length (page : Nat) (ns : List Nat) :
    (assocTrace page ns).length = ns.length + 1 := by
  induction ns generalizing page with
  | nil => rfl
  | cons n ns ih => simp [assocTrace, ih]

theorem listTrace_length (base : String) (page : Nat) (ns : List Nat) :
    (listTrace base page ns).length = ns.length + 1 := by
  induction ns generalizing page with
  | nil => rfl
  | cons n ns ih => simp [listTrace, ih]

theorem assocTrace_pages (page : Nat) (ns : List Nat) :
    (assocTrace page ns).map ListOptions.page = page :: ns := by
  induction ns generalizing page with
  | nil => rfl
  | cons n ns ih => simp [assocTrace, ih]

theorem listTrace_pages (base : String) (page : Nat) (ns : List Nat) :
    (listTrace base page ns).map (fun o => o.listOptions.page) = page :: ns := by
  induction ns generalizing page with
  | nil => rfl
  | cons n ns ih => simp [listTrace, ih]

theorem composed_err (owner repo sha m : String) (aR sR : List PageResult)
    (ha : (getOpenPullRequestsForSHA owner repo sha aR).1 = .err m) :
    GetAllPossibleOpenPullRequestsForSHA owner repo sha aR sR =
      ⟨.err ("failed to get open pull requests matching the SHA: " ++ m), 1, 0⟩ := by
  simp [GetAllPossibleOpenPullRequestsForSHA, ha]

theorem composed_nonempty (owner repo sha : String) (aR sR : List PageResult)
    (l : List PR) (ha : (getOpenPullRequestsForSHA owner repo sha aR).1 = .ok l)
    (hl : l ≠ []) :
    GetAllPossibleOpenPullRequestsForSHA owner repo sha aR sR = ⟨.ok l, 1, 0⟩ := by
  have hb : (l.length == 0) = false := by
    cases l with
    | nil => exact absurd rfl hl
    | cons x xs => rfl
  simp [GetAllPossibleOpenPullRequestsForSHA, ha, hb]

theorem composed_empty (owner repo sha : String) (aR sR : List PageResult)
    (ha : (getOpenPullRequestsForSHA owner repo sha aR).1 = .ok []) :
    GetAllPossibleOpenPullRequestsForSHA owner repo sha aR sR =
      match (ListAllOpenPullRequestsFilteredBySHA owner repo sha sR).1 with
      | GoResult.err msg =>
        ⟨.err ("failed to list open pull requests matching the SHA: " ++ msg), 1, 1⟩
      | other => ⟨other, 1, 1⟩ := by
  simp [GetAllPossibleOpenPullRequestsForSHA, ha]

theorem composed_assocCalls (owner repo sha : String) (aR sR : List PageResult) :
    (GetAllPossibleOpenPullRequestsForSHA owner repo sha aR sR).assocCalls = 1 := by
  unfold GetAllPossibleOpenPullRequestsForSHA
  cases (getOpenPullRequestsForSHA owner repo sha aR).1 with
  | ok l =>
    cases hl : (l.length == 0) with
    | true =>
      cases (ListAllOpenPullRequestsFilteredBySHA owner repo sha sR).1 <;> simp [hl]
    | false => simp [hl]
  | err m => rfl
  | panicked => rfl
  | stuck => rfl

/-- A sample open pull request whose head SHA is "s". -/
def samplePR : PR := some ⟨some "open", some ⟨some "s", none⟩, none⟩

/-- A sample closed pull request whose head SHA is "s". -/
def closedPR : PR := some ⟨some "closed", some ⟨some "s", none⟩, none⟩

/-! ## Claims -/

/-- C1: `GetAllPossibleOpenPullRequestsForSHA` performs the
commit-association search first (exactly once); when that search succeeds
with at least one record the composed operation returns exactly those
records and never invokes the full scan; when it succeeds with zero
records, the full scan is invoked exactly once and a successful scan's
records are returned verbatim. -/
theorem C1_fallback_composition (owner repo sha : String)
    (assocR scanR : List PageResult) :
    (GetAllPossibleOpenPullRequestsForSHA owner repo sha assocR scanR).assocCalls = 1 ∧
    (∀ l, (getOpenPullRequestsForSHA owner repo sha assocR).1 = .ok l → l ≠ [] →
       (GetAllPossibleOpenPullRequestsForSHA owner repo sha assocR scanR).result = .ok l ∧
       (GetAllPossibleOpenPullRequestsForSHA owner repo sha assocR scanR).scanCalls = 0) ∧
    ((getOpenPullRequestsForSHA owner repo sha assocR).1 = .ok [] →
       (GetAllPossibleOpenPullRequestsForSHA owner repo sha assocR scanR).scanCalls = 1 ∧
       ∀ l, (ListAllOpenPullRequestsFilteredBySHA owner repo sha scanR).1 = .ok l →
         (GetAllPossibleOpenPullRequestsForSHA owner repo sha assocR scanR).result = .ok l) := by
  refine ⟨composed_assocCalls owner repo sha assocR scanR, ?_, ?_⟩
  · intro l ha hl
    rw [composed_nonempty owner repo sha assocR scanR l ha hl]
    exact ⟨rfl, rfl⟩
  · intro ha
    constructor
    · rw [composed_empty owner repo sha assocR scanR ha]
      cases (ListAllOpenPullRequestsFilteredBySHA owner repo sha scanR).1 <;> rfl
    · intro l hb
      rw [composed_empty owner repo sha assocR scanR ha, hb]

theorem C1_fallback_composition_witness :
    (GetAllPossibleOpenPullRequestsForSHA "o" "r" "s"
        [PageResult.ok [samplePR] 0] []).result = .ok [samplePR] ∧
    (GetAllPossibleOpenPullRequestsForSHA "o" "r" "s"
        [PageResult.ok [samplePR] 0] []).scanCalls = 0 :=
  (C1_fallback_composition "o" "r" "s" [PageResult.ok [samplePR] 0] []).2.1
    [samplePR] (by decide) (by simp)

/-- C2: if the commit-association search inside the composed operation
returns an error, the composed operation returns a nil result with the
error wrapped by "failed to get open pull requests matching the SHA", and
the full scan is never invoked. -/
theorem C2_error_short_circuit (owner repo sha m : String)
    (assocR scanR : List PageResult)
    (h : (getOpenPullRequestsForSHA owner repo sha assocR).1 = .err m) :
    (GetAllPossibleOpenPullRequestsForSHA owner repo sha assocR scanR).result =
      .err ("failed to get open pull requests matching the SHA: " ++ m) ∧
    (GetAllPossibleOpenPullRequestsForSHA owner repo sha assocR scanR).scanCalls = 0 := by
  rw [composed_err owner repo sha m assocR scanR h]
  exact ⟨rfl, rfl⟩

theorem C2_error_short_circuit_witness :
    (GetAllPossibleOpenPullRequestsForSHA "o" "r" "s"
        [PageResult.err "boom"] []).result =
      .err ("failed to get open pull requests matching the SHA: " ++
        wrapRepoErr "o" "r" "boom") ∧
    (GetAllPossibleOpenPullRequestsForSHA "o" "r" "s"
        [PageResult.err "boom"] []).scanCalls = 0 :=
  C2_error_short_circuit "o" "r" "s" (wrapRepoErr "o" "r" "boom")
    [PageResult.err "boom"] [] rfl

/-- Another sample open pull request, with head SHA "t". -/
def otherPR : PR := some ⟨some "open", some ⟨some "t", none⟩, none⟩

/-- C3: on any page sequence, `getOpenPullRequestsForSHA` returns exactly
the records whose state is "open" and whose head SHA is the input sha, in
order; in particular every record whose state differs from "open" is
excluded even when the remote returned it. -/
theorem C3_assoc_defensive_filter (owner repo sha : String)
    (init : List (List PR × Nat)) (last : List PR) (rest : List PageResult)
    (h : ∀ p ∈ init, p.2 ≠ 0) :
    (getOpenPullRequestsForSHA owner repo sha
        (okStream init ++ PageResult.ok last 0 :: rest)).1 =
      .ok ((pagesConcat init last).filter (assocPred sha)) ∧
    (∀ l, (getOpenPullRequestsForSHA owner repo sha
        (okStream init ++ PageResult.ok last 0 :: rest)).1 = .ok l →
      ∀ pr ∈ l, getState pr = "open" ∧ getSHA (getHead pr) = sha) := by
  have hw := getOpenPRsLoop_wf owner repo sha init last rest 0 [] h
  have h1 : (getOpenPullRequestsForSHA owner repo sha
      (okStream init ++ PageResult.ok last 0 :: rest)).1 =
      .ok ((pagesConcat init last).filter (assocPred sha)) := by
    rw [getOpenPullRequestsForSHA, hw]
    simp
  refine ⟨h1, ?_⟩
  intro l hl pr hpr
  rw [h1] at hl
  have hle : l = (pagesConcat init last).filter (assocPred sha) := by
    cases hl; rfl
  subst hle
  have := List.of_mem_filter hpr
  simp only [assocPred, Bool.and_eq_true, beq_iff_eq] at this
  exact this

theorem C3_assoc_defensive_filter_witness :
    (getOpenPullRequestsForSHA "o" "r" "s"
        [PageResult.ok [samplePR, closedPR, otherPR, none] 0]).1 =
      .ok [samplePR] := by
  have h := (C3_assoc_defensive_filter "o" "r" "s" []
      [samplePR, closedPR, otherPR, none] [] (by simp)).1
  rw [show (pagesConcat [] [samplePR, closedPR, otherPR, none]).filter
        (assocPred "s") = [samplePR] from by decide] at h
  exact h

/-- C4: on any page sequence with non-nil records,
`ListAllOpenPullRequestsFilteredBySHA` returns exactly the records whose
head SHA is the input sha — the filter does not re-check the open state,
so a matching record is kept whatever its state — and every request it
sends carries the server-side filter `State: "open"`. -/
theorem C4_scan_filter (owner repo sha : String)
    (init : List (List PR × Nat)) (last : List PR) (rest : List PageResult)
    (h : ∀ p ∈ init, p.2 ≠ 0)
    (hnn : ∀ p ∈ init, ∀ pr ∈ p.1, pr ≠ none)
    (hl : ∀ pr ∈ last, pr ≠ none) :
    (ListAllOpenPullRequestsFilteredBySHA owner repo sha
        (okStream init ++ PageResult.ok last 0 :: rest)).1 =
      .ok ((pagesConcat init last).filter (scanPred sha)) ∧
    (∀ pr, scanPred sha pr = (getSHA (getHead pr) == sha)) ∧
    (∀ o ∈ (ListAllOpenPullRequestsFilteredBySHA owner repo sha
        (okStream init ++ PageResult.ok last 0 :: rest)).2,
      o.state = "open") := by
  have hw := listAllLoop_wf owner repo sha init last rest 0 [] h hnn hl
  refine ⟨?_, fun pr => rfl, ?_⟩
  · rw [ListAllOpenPullRequestsFilteredBySHA, hw]
    simp
  · intro o ho
    exact (listAllLoop_trace owner repo sha _ 0 [] o ho).1

theorem C4_scan_filter_witness :
    (ListAllOpenPullRequestsFilteredBySHA "o" "r" "s"
        [PageResult.ok [closedPR, samplePR, otherPR] 0]).1 =
      .ok [closedPR, samplePR] := by
  have h := (C4_scan_filter "o" "r" "s" [] [closedPR, samplePR, otherPR] []
      (by simp) (by simp) (by decide)).1
  rw [show (pagesConcat [] [closedPR, samplePR, otherPR]).filter
        (scanPred "s") = [closedPR, samplePR] from by decide] at h
  exact h

/-- C5: on a response sequence of N pages whose first N-1 responses carry
a nonzero nextPage and whose last carries nextPage 0 (anything after it is
never fetched), each paginating operation performs exactly N fetches, each
request after the first using the previous response's nextPage, and
returns the concatenation, in fetch order, of each page's matching
records.  `init` holds the first N-1 pages with their nextPage values,
`last` the final page. -/
theorem C5_pagination (owner repo sha ref : String)
    (init : List (List PR × Nat)) (last : List PR) (rest : List PageResult)
    (h : ∀ p ∈ init, p.2 ≠ 0)
    (hnn : ∀ p ∈ init, ∀ pr ∈ p.1, pr ≠ none)
    (hl : ∀ pr ∈ last, pr ≠ none) :
    getOpenPullRequestsForSHA owner repo sha
        (okStream init ++ PageResult.ok last 0 :: rest) =
      (.ok ((pagesConcat init last).filter (assocPred sha)),
       assocTrace 0 (init.map Prod.snd)) ∧
    ListAllOpenPullRequestsFilteredBySHA owner repo sha
        (okStream init ++ PageResult.ok last 0 :: rest) =
      (.ok ((pagesConcat init last).filter (scanPred sha)),
       listTrace "" 0 (init.map Prod.snd)) ∧
    GetAllOpenPullRequestsForRef owner repo ref
        (okStream init ++ PageResult.ok last 0 :: rest) =
      (.ok (pagesConcat init last),
       listTrace (stripRefsHeads ref) 0 (init.map Prod.snd)) ∧
    (getOpenPullRequestsForSHA owner repo sha
        (okStream init ++ PageResult.ok last 0 :: rest)).2.length =
      init.length + 1 ∧
    (ListAllOpenPullRequestsFilteredBySHA owner repo sha
        (okStream init ++ PageResult.ok last 0 :: rest)).2.length =
      init.length + 1 ∧
    (GetAllOpenPullRequestsForRef owner repo ref
        (okStream init ++ PageResult.ok last 0 :: rest)).2.length =
      init.length + 1 ∧
    (getOpenPullRequestsForSHA owner repo sha
        (okStream init ++ PageResult.ok last 0 :: rest)).2.map
        ListOptions.page = 0 :: init.map Prod.snd ∧
    (ListAllOpenPullRequestsFilteredBySHA owner repo sha
        (okStream init ++ PageResult.ok last 0 :: rest)).2.map
        (fun o => o.listOptions.page) = 0 :: init.map Prod.snd ∧
    (GetAllOpenPullRequestsForRef owner repo ref
        (okStream init ++ PageResult.ok last 0 :: rest)).2.map
        (fun o => o.listOptions.page) = 0 :: init.map Prod.snd := by
  have hwA := getOpenPRsLoop_wf owner repo sha init last rest 0 [] h
  have hwS := listAllLoop_wf owner repo sha init last rest 0 [] h hnn hl
  have hwR := forRefLoop_wf owner repo (stripRefsHeads ref) init last rest 0 [] h
  have hA : getOpenPullRequestsForSHA owner repo sha
      (okStream init ++ PageResult.ok last 0 :: rest) =
      (.ok ((pagesConcat init last).filter (assocPred sha)),
       assocTrace 0 (init.map Prod.snd)) := by
    rw [getOpenPullRequestsForSHA, hwA]; simp
  have hS : ListAllOpenPullRequestsFilteredBySHA owner repo sha
      (okStream init ++ PageResult.ok last 0 :: rest) =
      (.ok ((pagesConcat init last).filter (scanPred sha)),
       listTrace "" 0 (init.map Prod.snd)) := by
    rw [ListAllOpenPullRequestsFilteredBySHA, hwS]; simp
  have hR : GetAllOpenPullRequestsForRef owner repo ref
      (okStream init ++ PageResult.ok last 0 :: rest) =
      (.ok (pagesConcat init last),
       listTrace (stripRefsHeads ref) 0 (init.map Prod.snd)) := by
    rw [GetAllOpenPullRequestsForRef, hwR]; simp
  refine ⟨hA, hS, hR, ?_, ?_, ?_, ?_, ?_, ?_⟩
  · rw [hA]; simp [assocTrace_length]
  · rw [hS]; simp [listTrace_length]
  · rw [hR]; simp [listTrace_length]
  · rw [hA]; simp [assocTrace_pages]
  · rw [hS]; simp [listTrace_pages]
  · rw [hR]; simp [listTrace_pages]

theorem C5_pagination_witness :
    getOpenPullRequestsForSHA "o" "r" "s"
        [PageResult.ok [samplePR] 2, PageResult.ok [closedPR, otherPR] 0] =
      (.ok [samplePR], [⟨0, 100⟩, ⟨2, 100⟩]) ∧
    GetAllOpenPullRequestsForRef "o" "r" "main"
        [PageResult.ok [samplePR] 2, PageResult.ok [closedPR, otherPR] 0] =
      (.ok [samplePR, closedPR, otherPR],
       [⟨"open", "main", ⟨0, 100⟩⟩, ⟨"open", "main", ⟨2, 100⟩⟩]) := by
  have h := C5_pagination "o" "r" "s" "main" [([samplePR], 2)]
      [closedPR, otherPR] [] (by decide) (by decide) (by decide)
  have hA := h.1
  have hR := h.2.2.1
  rw [show (pagesConcat [([samplePR], 2)] [closedPR, otherPR]).filter
        (assocPred "s") = [samplePR] from by decide,
      show assocTrace 0 (List.map Prod.snd [([samplePR], 2)]) =
        [⟨0, 100⟩, ⟨2, 100⟩] from by decide] at hA
  rw [show (pagesConcat [([samplePR], 2)] [closedPR, otherPR]) =
        [samplePR, closedPR, otherPR] from by decide,
      show listTrace (stripRefsHeads "main") 0 (List.map Prod.snd [([samplePR], 2)]) =
        [⟨"open", "main", ⟨0, 100⟩⟩, ⟨"open", "main", ⟨2, 100⟩⟩] from by decide] at hR
  exact ⟨hA, hR⟩

theorem stripRefsHeads_append (t : String) :
    stripRefsHeads ("refs/heads/" ++ t) = t := by
  unfold stripRefsHeads
  rw [show ("refs/heads/" ++ t).data = "refs/heads/".data ++ t.data from rfl]
  rw [if_pos (List.isPrefixOf_iff_prefix.mpr (List.prefix_append _ _))]
  rw [List.drop_left]

theorem stripRefsHeads_of_no_match (ref : String)
    (h : ∀ t, ref ≠ "refs/heads/" ++ t) : stripRefsHeads ref = ref := by
  unfold stripRefsHeads
  rw [if_neg]
  intro hp
  obtain ⟨t, ht⟩ := List.isPrefixOf_iff_prefix.mp hp
  refine h (String.mk t) ?_
  cases ref with
  | mk d =>
    cases ht
    rfl

/-- C6: `GetAllOpenPullRequestsForRef` queries the remote with the base
ref equal to the input with a single leading "refs/heads/" removed when
present, and to the input unchanged otherwise; "refs/heads/main" yields
base "main" and "main" yields base "main". -/
theorem C6_ref_normalization (owner repo ref : String)
    (responses : List PageResult) :
    (∀ o ∈ (GetAllOpenPullRequestsForRef owner repo ref responses).2,
       o.base = stripRefsHeads ref) ∧
    stripRefsHeads "refs/heads/main" = "main" ∧
    stripRefsHeads "main" = "main" ∧
    (∀ t, ref = "refs/heads/" ++ t → stripRefsHeads ref = t) ∧
    ((∀ t, ref ≠ "refs/heads/" ++ t) → stripRefsHeads ref = ref) := by
  refine ⟨?_, by decide, by decide, ?_, stripRefsHeads_of_no_match ref⟩
  · intro o ho
    exact (forRefLoop_trace owner repo (stripRefsHeads ref) responses 0 [] o ho).2.1
  · intro t ht
    rw [ht]
    exact stripRefsHeads_append t

theorem C6_ref_normalization_witness :
    ((⟨"open", "main", ⟨0, 100⟩⟩ : PullRequestListOptions).base =
      stripRefsHeads "refs/heads/main") ∧
    stripRefsHeads "refs/heads/main" = "main" ∧
    stripRefsHeads "main" = "main" :=
  ⟨(C6_ref_normalization "o" "r" "refs/heads/main" [PageResult.ok [] 0]).1
      ⟨"open", "main", ⟨0, 100⟩⟩ (by decide),
   (C6_ref_normalization "o" "r" "refs/heads/main" [PageResult.ok [] 0]).2.1,
   (C6_ref_normalization "o" "r" "main" [PageResult.ok [] 0]).2.2.1⟩

/-- C7: on any page-fetch error (after any number of well-formed pages),
each paginating operation returns the error wrapped with
"failed to list pull requests for repository owner/repo" and no records:
the `err` outcome carries nothing accumulated from earlier pages. -/
theorem C7_error_abort (owner repo sha ref e : String)
    (init : List (List PR × Nat)) (rest : List PageResult)
    (h : ∀ p ∈ init, p.2 ≠ 0)
    (hnn : ∀ p ∈ init, ∀ pr ∈ p.1, pr ≠ none) :
    (getOpenPullRequestsForSHA owner repo sha
        (okStream init ++ PageResult.err e :: rest)).1 =
      .err (wrapRepoErr owner repo e) ∧
    (ListAllOpenPullRequestsFilteredBySHA owner repo sha
        (okStream init ++ PageResult.err e :: rest)).1 =
      .err (wrapRepoErr owner repo e) ∧
    (GetAllOpenPullRequestsForRef owner repo ref
        (okStream init ++ PageResult.err e :: rest)).1 =
      .err (wrapRepoErr owner repo e) ∧
    wrapRepoErr owner repo e =
      "failed to list pull requests for repository " ++ owner ++ "/" ++ repo
        ++ ": " ++ e :=
  ⟨getOpenPRsLoop_err owner repo sha init e rest 0 [] h,
   listAllLoop_err owner repo sha init e rest 0 [] h hnn,
   forRefLoop_err owner repo (stripRefsHeads ref) init e rest 0 [] h,
   rfl⟩

theorem C7_error_abort_witness :
    (getOpenPullRequestsForSHA "o" "r" "s"
        [PageResult.ok [samplePR] 2, PageResult.err "boom"]).1 =
      .err (wrapRepoErr "o" "r" "boom") ∧
    (ListAllOpenPullRequestsFilteredBySHA "o" "r" "s"
        [PageResult.ok [samplePR] 2, PageResult.err "boom"]).1 =
      .err (wrapRepoErr "o" "r" "boom") ∧
    (GetAllOpenPullRequestsForRef "o" "r" "main"
        [PageResult.ok [samplePR] 2, PageResult.err "boom"]).1 =
      .err (wrapRepoErr "o" "r" "boom") := by
  have h := C7_error_abort "o" "r" "s" "main" "boom" [([samplePR], 2)] []
      (by decide) (by decide)
  exact ⟨h.1, h.2.1, h.2.2.1⟩

/-- C8: when every page fetch succeeds and the remote returns no matching
records (in particular when it returns no records at all), each of the
four operations returns the empty sequence with a nil error — an empty
result is a normal outcome, never an error. -/
theorem C8_empty_is_normal (owner repo sha ref : String)
    (init init2 : List (List PR × Nat)) (last last2 : List PR)
    (h1 : ∀ p ∈ init, p.2 ≠ 0) (h2 : ∀ p ∈ init2, p.2 ≠ 0)
    (hf1 : (pagesConcat init last).filter (assocPred sha) = [])
    (hnn : ∀ p ∈ init2, ∀ pr ∈ p.1, pr ≠ none)
    (hl2 : ∀ pr ∈ last2, pr ≠ none)
    (hf2 : (pagesConcat init2 last2).filter (scanPred sha) = []) :
    (getOpenPullRequestsForSHA owner repo sha
        (okStream init ++ [PageResult.ok last 0])).1 = .ok [] ∧
    (ListAllOpenPullRequestsFilteredBySHA owner repo sha
        (okStream init2 ++ [PageResult.ok last2 0])).1 = .ok [] ∧
    (GetAllPossibleOpenPullRequestsForSHA owner repo sha
        (okStream init ++ [PageResult.ok last 0])
        (okStream init2 ++ [PageResult.ok last2 0])).result = .ok [] ∧
    (pagesConcat init last = [] →
      (GetAllOpenPullRequestsForRef owner repo ref
          (okStream init ++ [PageResult.ok last 0])).1 = .ok []) := by
  have hA : (getOpenPullRequestsForSHA owner repo sha
      (okStream init ++ [PageResult.ok last 0])).1 = .ok [] := by
    rw [getOpenPullRequestsForSHA,
        getOpenPRsLoop_wf owner repo sha init last [] 0 [] h1]
    simp [hf1]
  have hS : (ListAllOpenPullRequestsFilteredBySHA owner repo sha
      (okStream init2 ++ [PageResult.ok last2 0])).1 = .ok [] := by
    rw [ListAllOpenPullRequestsFilteredBySHA,
        listAllLoop_wf owner repo sha init2 last2 [] 0 [] h2 hnn hl2]
    simp [hf2]
  refine ⟨hA, hS, ?_, ?_⟩
  · rw [composed_empty owner repo sha _ _ hA, hS]
  · intro hpc
    rw [GetAllOpenPullRequestsForRef,
        forRefLoop_wf owner repo (stripRefsHeads ref) init last [] 0 [] h1]
    simp [hpc]

theorem C8_empty_is_normal_witness :
    (getOpenPullRequestsForSHA "o" "r" "s" [PageResult.ok [otherPR] 0]).1 =
      .ok [] ∧
    (ListAllOpenPullRequestsFilteredBySHA "o" "r" "s"
        [PageResult.ok [otherPR] 0]).1 = .ok [] ∧
    (GetAllPossibleOpenPullRequestsForSHA "o" "r" "s"
        [PageResult.ok [otherPR] 0] [PageResult.ok [otherPR] 0]).result =
      .ok [] ∧
    (GetAllOpenPullRequestsForRef "o" "r" "main" [PageResult.ok [] 0]).1 =
      .ok [] := by
  have h := C8_empty_is_normal "o" "r" "s" "main" [] [] [otherPR] [otherPR]
      (by simp) (by simp) (by decide) (by simp) (by decide) (by decide)
  have h2 := C8_empty_is_normal "o" "r" "s" "main" [] [] [] []
      (by simp) (by simp) (by decide) (by simp) (by decide) (by decide)
  exact ⟨h.1, h.2.1, h.2.2.1, h2.2.2.2 (by decide)⟩

/-- C9: on any response sequence, every fetch of each paginating
operation uses a per-page size of exactly 100, and the non-page request
fields are identical on every fetch of one call: the commit-association
requests vary only in page, the scan requests always carry state "open"
and an empty base, and the ref requests always carry state "open" and
the normalized base ref. -/
theorem C9_request_frame (owner repo sha ref : String)
    (responses : List PageResult) :
    (∀ o ∈ (getOpenPullRequestsForSHA owner repo sha responses).2,
       o.perPage = 100) ∧
    (∀ o ∈ (ListAllOpenPullRequestsFilteredBySHA owner repo sha responses).2,
       o.listOptions.perPage = 100 ∧ o.state = "open" ∧ o.base = "") ∧
    (∀ o ∈ (GetAllOpenPullRequestsForRef owner repo ref responses).2,
       o.listOptions.perPage = 100 ∧ o.state = "open" ∧
         o.base = stripRefsHeads ref) := by
  refine ⟨getOpenPRsLoop_trace owner repo sha responses 0 [], ?_, ?_⟩
  · intro o ho
    have h := listAllLoop_trace owner repo sha responses 0 [] o ho
    exact ⟨h.2.2, h.1, h.2.1⟩
  · intro o ho
    have h := forRefLoop_trace owner repo (stripRefsHeads ref) responses 0 [] o ho
    exact ⟨h.2.2, h.1, h.2.1⟩

theorem C9_request_frame_witness :
    (⟨0, 100⟩ : ListOptions).perPage = 100 ∧
    ((⟨"open", "", ⟨0, 100⟩⟩ : PullRequestListOptions).listOptions.perPage = 100 ∧
      (⟨"open", "", ⟨0, 100⟩⟩ : PullRequestListOptions).state = "open" ∧
      (⟨"open", "", ⟨0, 100⟩⟩ : PullRequestListOptions).base = "") ∧
    ((⟨"open", "main", ⟨0, 100⟩⟩ : PullRequestListOptions).listOptions.perPage = 100 ∧
      (⟨"open", "main", ⟨0, 100⟩⟩ : PullRequestListOptions).state = "open" ∧
      (⟨"open", "main", ⟨0, 100⟩⟩ : PullRequestListOptions).base =
        stripRefsHeads "refs/heads/main") :=
  ⟨(C9_request_frame "o" "r" "s" "refs/heads/main" [PageResult.ok [] 0]).1
      ⟨0, 100⟩ (by decide),
   (C9_request_frame "o" "r" "s" "refs/heads/main" [PageResult.ok [] 0]).2.1
      ⟨"open", "", ⟨0, 100⟩⟩ (by decide),
   (C9_request_frame "o" "r" "s" "refs/heads/main" [PageResult.ok [] 0]).2.2
      ⟨"open", "main", ⟨0, 100⟩⟩ (by decide)⟩

/-- C10: `ListAllOpenPullRequestsFilteredBySHA` reads the head field by
the direct access `pr.Head`, so a nil record makes it panic, and it is
panic-free exactly under the precondition that every record the remote
returns is non-nil; `getOpenPullRequestsForSHA` and
`GetAllOpenPullRequestsForRef` use nil-tolerant accessors and never
panic — a nil record merely fails the commit-association filter
(`assocPred` is false on it) and yields empty field values. -/
theorem C10_nil_record_safety (owner repo sha ref : String)
    (responses : List PageResult) :
    (ListAllOpenPullRequestsFilteredBySHA "o" "r" "s"
        [PageResult.ok [none] 0]).1 = .panicked ∧
    ((∀ r ∈ responses, ∀ prs n, r = PageResult.ok prs n →
        ∀ pr ∈ prs, pr ≠ none) →
      (ListAllOpenPullRequestsFilteredBySHA owner repo sha responses).1 ≠
        .panicked) ∧
    (getOpenPullRequestsForSHA owner repo sha responses).1 ≠ .panicked ∧
    (GetAllOpenPullRequestsForRef owner repo ref responses).1 ≠ .panicked ∧
    (∀ s, assocPred s none = false) ∧
    getState none = "" ∧ getRef (getBase none) = "" := by
  refine ⟨by decide, ?_,
    getOpenPRsLoop_no_panic owner repo sha responses 0 [],
    forRefLoop_no_panic owner repo (stripRefsHeads ref) responses 0 [],
    fun s => rfl, rfl, rfl⟩
  intro hnn
  exact listAllLoop_no_panic owner repo sha responses 0 [] hnn

theorem C10_nil_record_safety_witness :
    (ListAllOpenPullRequestsFilteredBySHA "o" "r" "s"
        [PageResult.ok [samplePR] 0]).1 ≠ .panicked ∧
    (getOpenPullRequestsForSHA "o" "r" "s"
        [PageResult.ok [none] 0]).1 ≠ .panicked :=
  ⟨(C10_nil_record_safety "o" "r" "s" "m" [PageResult.ok [samplePR] 0]).2.1
      (by
        intro r hr prs n hEq pr hpr
        rw [List.mem_singleton] at hr
        subst hr
        cases hEq
        rw [List.mem_singleton] at hpr
        subst hpr
        decide),
   (C10_nil_record_safety "o" "r" "s" "m" [PageResult.ok [none] 0]).2.2.1⟩
